import Mathlib

/-!
# Vector based index maps of libosmium

A shallow embedding of `include/osmium/index/map/vector.hpp`:

* `VectorBasedDenseMap`: a vector of values addressed directly by the key;
  the default value `TValue {}` marks an unused slot.
* `VectorBasedSparseMap`: a vector of `(key, value)` pairs, appended by `set`,
  ordered by `sort`, searched by `get` with `std::lower_bound`.

Modelling decisions.

* The backing container (`TVector`, e.g. `std::vector`) is modelled by its
  logical content, a `List`.  Capacity is not part of the state: no operation of
  the map interface observes it (`size` and `get` read the content only).
* `TKey` is the 64 bit unsigned id type, `size_t` has 64 bits.  Keys are natural
  numbers below `2 ^ 64`; the one arithmetic operation on keys in the source,
  `key+1` in the dense `set`, is computed modulo `2 ^ 64`.
* `std::out_of_range`, thrown by `vector::at` and by both `get` functions, is the
  single error value `MapError.out_of_range` (the `KeyNotFound` of the
  specification).
* Allocation failure is outside the model: the lists are unbounded.
* The dense `set` stores through the unchecked `operator[]`.  When that store is
  out of bounds the behaviour of the program is undefined.  `set_in_bounds` says
  whether the store is inside the vector, `set_run` and `set_all_run` are `set` and
  a sequence of `set` calls with the undefined case as `none`.  The plain `set`
  gives the content of the vector object itself, which such a store does not
  address.
-/

namespace osmium.index.map

/-- Modelled from the spec: the key type `TKey` is a template parameter whose
instantiation is not part of `vector.hpp`; the specification (section 1) names 64 bit
unsigned numeric identifiers.  `KEY_RANGE` is the number of values of that type. -/
def KEY_RANGE : Nat := 2 ^ 64

/-- The exception type thrown by the `get` functions: `std::out_of_range`. -/
inductive MapError where
  | out_of_range
  deriving DecidableEq, Repr

deriving instance DecidableEq for Except

/-- Model of `vector::resize(n)`: the first `n` elements are kept, missing ones are
value-initialised (`TValue {}`). -/
def resize {V : Type} [Inhabited V] (v : List V) (n : Nat) : List V :=
  v.take n ++ List.replicate (n - v.length) default

/-- State of a `VectorBasedDenseMap<TVector, TKey, TValue>`: the member `m_vector`. -/
structure VectorBasedDenseMap (V : Type) where
  m_vector : List V
  deriving DecidableEq, Repr

namespace VectorBasedDenseMap

variable {V : Type}

/-- The default constructor: `m_vector()`. -/
def empty : VectorBasedDenseMap V := ⟨[]⟩

/-- Source: `size()`, returns `m_vector.size()`. -/
def size (m : VectorBasedDenseMap V) : Nat := m.m_vector.length

/-- Source: `reserve(size)`, which calls `m_vector.reserve(size)`: capacity only,
the content is untouched. -/
def reserve (m : VectorBasedDenseMap V) (_size : Nat) : VectorBasedDenseMap V := m

/-- Source: `set(key, value)`.
```
if (size() <= key) { m_vector.resize(key+1); }
m_vector[key] = value;
```
`key+1` is evaluated in the key type, hence modulo `2 ^ 64`.  When it wraps to `0`
the following store through `operator[]` is out of bounds, which is undefined
behaviour in C++: the memory written is not an element of the vector (on a vector
without a buffer the write goes to an unmapped address and ends the process, with a
buffer it overwrites the memory in front of the buffer).  The value of this
function is then the content the vector object holds, the one `resize` left
(`List.set` beyond the length changes nothing); it says nothing about the rest of
the program state.  `set_in_bounds` tells the two cases apart and `set_run` has no
result in the undefined one. -/
def set [Inhabited V] (m : VectorBasedDenseMap V) (key : Nat) (value : V) :
    VectorBasedDenseMap V :=
  let v := if m.size ≤ key then resize m.m_vector ((key + 1) % KEY_RANGE) else m.m_vector
  ⟨v.set key value⟩

/-- Source: `get(key)`.
```
const TValue& value = m_vector.at(key);
if (value == TValue {}) { throw std::out_of_range("out of range"); }
return value;
```
`at` throws `std::out_of_range` when `key >= size()`. -/
def get [Inhabited V] [DecidableEq V] (m : VectorBasedDenseMap V) (key : Nat) :
    Except MapError V :=
  match m.m_vector[key]? with
  | none => .error .out_of_range
  | some value => if value = default then .error .out_of_range else .ok value

/-- Source: `clear()`: `m_vector.clear(); m_vector.shrink_to_fit();`. -/
def clear (_m : VectorBasedDenseMap V) : VectorBasedDenseMap V := ⟨[]⟩

/-- A sequence of `set` calls, executed from left to right. -/
def set_all [Inhabited V] (m : VectorBasedDenseMap V) (calls : List (Nat × V)) :
    VectorBasedDenseMap V :=
  calls.foldl (fun s c => s.set c.1 c.2) m

/-- Whether the second statement of `set(key, value)`, the store
`m_vector[key] = value` through the unchecked `operator[]`, addresses an element of
the vector as the first statement (`if (size() <= key) { m_vector.resize(key+1); }`)
left it. -/
def set_in_bounds [Inhabited V] (m : VectorBasedDenseMap V) (key : Nat) : Bool :=
  decide (key <
    (if m.size ≤ key then resize m.m_vector ((key + 1) % KEY_RANGE) else m.m_vector).length)

/-- Source: `set(key, value)` with undefined behaviour made explicit: the new store
when the store through `operator[]` is inside the vector, `none` when it is out of
bounds and the behaviour of the program is undefined. -/
def set_run [Inhabited V] (m : VectorBasedDenseMap V) (key : Nat) (value : V) :
    Option (VectorBasedDenseMap V) :=
  if m.set_in_bounds key then some (m.set key value) else none

/-- A sequence of `set` calls, executed from left to right, with undefined
behaviour made explicit: `none` as soon as one call stores out of bounds. -/
def set_all_run [Inhabited V] :
    VectorBasedDenseMap V → List (Nat × V) → Option (VectorBasedDenseMap V)
  | m, [] => some m
  | m, c :: cs =>
    match m.set_run c.1 c.2 with
    | none => none
    | some s => set_all_run s cs

end VectorBasedDenseMap

/-- Source: `std::lower_bound(first, last, val, comp)` from `<algorithm>`, the search
used by the sparse `get`.  Iterators are positions in `v`; the loop is
```
while (len > 0) {
    half = len >> 1; middle = first + half;
    if (comp(*middle, val)) { first = middle + 1; len = len - half - 1; }
    else len = half;
}
return first;
```
The first argument bounds the number of iterations; `len` decreases in every
iteration, so `len` iterations are enough.  The branch `none` is not reached when
`first + len` is at most the length of `v`. -/
def lower_bound_loop {α : Type} (v : List α) (val : α) (comp : α → α → Bool) :
    Nat → Nat → Nat → Nat
  | 0, first, _ => first
  | fuel + 1, first, len =>
    if len = 0 then first
    else
      let half := len / 2
      let middle := first + half
      match v[middle]? with
      | none => first
      | some a =>
        if comp a val then lower_bound_loop v val comp fuel (middle + 1) (len - half - 1)
        else lower_bound_loop v val comp fuel first half

/-- The call `std::lower_bound(v.begin(), v.end(), val, comp)`; the result is the
offset of the returned iterator from `v.begin()`. -/
def lower_bound {α : Type} (v : List α) (val : α) (comp : α → α → Bool) : Nat :=
  lower_bound_loop v val comp v.length 0 v.length

/-- Source: `operator<` of `std::pair<TKey, TValue>`, the order `std::sort` uses:
`a.first < b.first || (!(b.first < a.first) && a.second < b.second)`. -/
def pair_lt {V : Type} [LinearOrder V] (a b : Nat × V) : Prop :=
  a.1 < b.1 ∨ (¬ b.1 < a.1 ∧ a.2 < b.2)

instance pair_lt_decidable {V : Type} [LinearOrder V] (a b : Nat × V) :
    Decidable (pair_lt a b) := by
  unfold pair_lt
  infer_instance

/-- The order in which `std::sort` leaves two elements `a`, `b` with `a` before `b`:
`!(b < a)`. -/
def sort_rel {V : Type} [LinearOrder V] (a b : Nat × V) : Prop := ¬ pair_lt b a

instance sort_rel_decidable {V : Type} [LinearOrder V] (a b : Nat × V) :
    Decidable (sort_rel a b) := by
  unfold sort_rel
  infer_instance

/-- State of a `VectorBasedSparseMap<TKey, TValue, TVector>`: the member `m_vector`,
a vector of `element_type = std::pair<TKey, TValue>`. -/
structure VectorBasedSparseMap (V : Type) where
  m_vector : List (Nat × V)
  deriving DecidableEq, Repr

namespace VectorBasedSparseMap

variable {V : Type}

/-- The default constructor: `m_vector()`. -/
def empty : VectorBasedSparseMap V := ⟨[]⟩

/-- Source: `set(key, value)`: `m_vector.push_back(element_type(key, value))`. -/
def set (m : VectorBasedSparseMap V) (key : Nat) (value : V) : VectorBasedSparseMap V :=
  ⟨m.m_vector ++ [(key, value)]⟩

/-- Source: `size()`, returns `m_vector.size()`. -/
def size (m : VectorBasedSparseMap V) : Nat := m.m_vector.length

/-- Source: `get(key)`.
```
const element_type element {key, TValue {}};
const auto result = std::lower_bound(m_vector.begin(), m_vector.end(), element,
    [](const element_type& a, const element_type& b) { return a.first < b.first; });
if (result == m_vector.end() || result->first != key) { throw std::out_of_range("Unknown ID"); }
else { return result->second; }
```
`result == m_vector.end()` is the case in which position `result` holds no element. -/
def get [Inhabited V] (m : VectorBasedSparseMap V) (key : Nat) : Except MapError V :=
  let element : Nat × V := (key, default)
  let result := lower_bound m.m_vector element (fun a b => decide (a.1 < b.1))
  match m.m_vector[result]? with
  | none => .error .out_of_range
  | some e => if e.1 ≠ key then .error .out_of_range else .ok e.2

/-- Source: `clear()`: `m_vector.clear(); m_vector.shrink_to_fit();`. -/
def clear (_m : VectorBasedSparseMap V) : VectorBasedSparseMap V := ⟨[]⟩

/-- Source: `sort()`: `std::sort(m_vector.begin(), m_vector.end())`.
`std::sort` is specified by its result: a rearrangement of the range in which no
element is less (`operator<`) than an element before it.  `operator<` of pairs is
a total order when the order of the values is, so that rearrangement is unique and
every sorting function computes it; insertion sort is used here. -/
def sort [LinearOrder V] (m : VectorBasedSparseMap V) : VectorBasedSparseMap V :=
  ⟨m.m_vector.insertionSort sort_rel⟩

/-- A sequence of `set` calls, executed from left to right. -/
def set_all (m : VectorBasedSparseMap V) (calls : List (Nat × V)) : VectorBasedSparseMap V :=
  calls.foldl (fun s c => s.set c.1 c.2) m

end VectorBasedSparseMap

/-! ## Dense map: auxiliary facts -/

theorem resize_length {V : Type} [Inhabited V] (v : List V) (n : Nat) :
    (resize v n).length = n := by
  simp only [resize, List.length_append, List.length_take, List.length_replicate]
  omega

theorem resize_getElem?_old {V : Type} [Inhabited V] (v : List V) (n j : Nat)
    (hj : j < v.length) (hn : j < n) : (resize v n)[j]? = v[j]? := by
  unfold resize
  rw [List.getElem?_append_left (by simp; omega), List.getElem?_take_of_lt hn]

theorem resize_getElem?_new {V : Type} [Inhabited V] (v : List V) (n j : Nat)
    (hj : v.length ≤ j) (hn : j < n) : (resize v n)[j]? = some default := by
  unfold resize
  rw [List.getElem?_append_right (by simp; omega)]
  rw [List.getElem?_replicate]
  simp
  omega

theorem resize_getElem?_none {V : Type} [Inhabited V] (v : List V) (n j : Nat)
    (hn : n ≤ j) : (resize v n)[j]? = none := by
  rw [List.getElem?_eq_none_iff, resize_length]
  exact hn

namespace VectorBasedDenseMap

variable {V : Type}

/-- Whatever `set` leaves in a slot other than `key` was there before or is the
default value (any key, also one for which `key+1` wraps). -/
theorem set_getElem?_other [Inhabited V] (m : VectorBasedDenseMap V) (key : Nat) (value : V)
    (j : Nat) (x : V) (hj : j ≠ key) (h : (m.set key value).m_vector[j]? = some x) :
    m.m_vector[j]? = some x ∨ x = default := by
  simp only [set, List.getElem?_set, if_neg (Ne.symm hj)] at h
  split at h
  · by_cases hn : j < (key + 1) % KEY_RANGE
    · by_cases hl : j < m.m_vector.length
      · rw [resize_getElem?_old _ _ _ hl hn] at h
        exact Or.inl h
      · rw [resize_getElem?_new _ _ _ (by omega) hn] at h
        exact Or.inr (Option.some.inj h).symm
    · rw [resize_getElem?_none _ _ _ (by omega)] at h
      exact absurd h (by simp)
  · exact Or.inl h

/-- The length after `set` with a key below the largest key value. -/
theorem size_set_of_lt [Inhabited V] (m : VectorBasedDenseMap V) (key : Nat) (value : V)
    (hk : key + 1 < KEY_RANGE) : (m.set key value).size = max m.size (key + 1) := by
  simp only [set, size, List.length_set, Nat.mod_eq_of_lt hk]
  split
  · rw [resize_length]; omega
  · omega

/-- The slot `key` after `set` with a key below the largest key value. -/
theorem set_getElem?_self [Inhabited V] (m : VectorBasedDenseMap V) (key : Nat) (value : V)
    (hk : key + 1 < KEY_RANGE) : (m.set key value).m_vector[key]? = some value := by
  have hs := size_set_of_lt m key value hk
  simp only [set, size, List.length_set] at hs
  simp only [set, size, List.getElem?_set, if_true]
  rw [if_pos (by rw [hs]; omega)]

/-- The slots below the old size other than `key` after `set` with a key below the
largest key value. -/
theorem set_getElem?_old [Inhabited V] (m : VectorBasedDenseMap V) (key : Nat) (value : V)
    (hk : key + 1 < KEY_RANGE) (j : Nat) (hj : j ≠ key) (hl : j < m.size) :
    (m.set key value).m_vector[j]? = m.m_vector[j]? := by
  simp only [set, List.getElem?_set, if_neg (Ne.symm hj), Nat.mod_eq_of_lt hk]
  split
  · rename_i h
    exact resize_getElem?_old _ _ _ hl (by omega)
  · rfl

/-- The slots created by `set` below `key`, for a key below the largest key value. -/
theorem set_getElem?_new [Inhabited V] (m : VectorBasedDenseMap V) (key : Nat) (value : V)
    (hk : key + 1 < KEY_RANGE) (j : Nat) (hl : m.size ≤ j) (hj : j < key) :
    (m.set key value).m_vector[j]? = some default := by
  simp only [set, List.getElem?_set, if_neg (show ¬ key = j by omega), Nat.mod_eq_of_lt hk]
  rw [if_pos (show m.size ≤ key by omega)]
  exact resize_getElem?_new _ _ _ hl (by omega)

/-- For a key below the largest key value, `get` after `set` of a non default value
returns that value. -/
theorem get_set_of_lt [Inhabited V] [DecidableEq V] (m : VectorBasedDenseMap V) (key : Nat)
    (value : V) (hk : key + 1 < KEY_RANGE) (hv : value ≠ default) :
    (m.set key value).get key = .ok value := by
  simp only [get, set_getElem?_self m key value hk, if_neg hv]

/-- A slot that no call of a sequence of `set` calls addresses holds what it held
before the sequence, or the default value, or does not exist. -/
theorem set_all_getElem?_other [Inhabited V] (calls : List (Nat × V)) :
    ∀ (m : VectorBasedDenseMap V) (j : Nat) (x : V), j ∉ calls.map Prod.fst →
      (m.set_all calls).m_vector[j]? = some x → m.m_vector[j]? = some x ∨ x = default := by
  induction calls with
  | nil => intro m j x _ h; exact Or.inl h
  | cons c cs ih =>
    intro m j x hj h
    simp only [List.map_cons, List.mem_cons, not_or] at hj
    rcases ih (m.set c.1 c.2) j x hj.2 h with h1 | h1
    · exact set_getElem?_other m c.1 c.2 j x hj.1 h1
    · exact Or.inr h1

/-- The size after a sequence of `set` calls whose keys are all below the largest
key value: it is at least the old size and at least `key + 1` for every key of the
sequence, and it is the old size or `key + 1` for one key of the sequence. -/
theorem size_set_all_of_lt [Inhabited V] (calls : List (Nat × V)) :
    ∀ (m : VectorBasedDenseMap V), (∀ c ∈ calls, c.1 + 1 < KEY_RANGE) →
      m.size ≤ (m.set_all calls).size ∧
      (∀ c ∈ calls, c.1 + 1 ≤ (m.set_all calls).size) ∧
      ((m.set_all calls).size = m.size ∨ ∃ c ∈ calls, (m.set_all calls).size = c.1 + 1) := by
  induction calls with
  | nil => intro m _; simp [set_all]
  | cons c cs ih =>
    intro m hk
    have hc := size_set_of_lt m c.1 c.2 (hk c (List.mem_cons_self _ _))
    obtain ⟨h1, h2, h3⟩ := ih (m.set c.1 c.2) (fun d hd => hk d (List.mem_cons_of_mem _ hd))
    have he : (m.set_all (c :: cs)) = (m.set c.1 c.2).set_all cs := rfl
    rw [he]
    refine ⟨by omega, ?_, ?_⟩
    · intro d hd
      rcases List.mem_cons.mp hd with rfl | hd
      · omega
      · exact h2 d hd
    · rcases h3 with h3 | ⟨d, hd, h3⟩
      · by_cases hm : m.size ≤ c.1
        · exact Or.inr ⟨c, List.mem_cons_self _ _, by omega⟩
        · exact Or.inl (by omega)
      · exact Or.inr ⟨d, List.mem_cons_of_mem _ hd, h3⟩

/-- The store of `set` is out of bounds exactly when the vector is resized and
`key+1`, evaluated in the key type, is not above `key`: for a key of the key type,
when `key` is the largest key value and `size() <= key`. -/
theorem set_in_bounds_eq_false_iff [Inhabited V] (m : VectorBasedDenseMap V) (key : Nat) :
    m.set_in_bounds key = false ↔ (m.size ≤ key ∧ (key + 1) % KEY_RANGE ≤ key) := by
  simp only [set_in_bounds, decide_eq_false_iff_not, Nat.not_lt]
  by_cases h : m.size ≤ key
  · rw [if_pos h, resize_length]
    exact ⟨fun hk => ⟨h, hk⟩, fun hk => hk.2⟩
  · rw [if_neg h]
    simp only [size] at h
    exact ⟨fun hk => absurd hk h, fun hk => absurd hk.1 h⟩

/-- For a key below the largest key value the store of `set` is inside the vector. -/
theorem set_in_bounds_of_lt [Inhabited V] (m : VectorBasedDenseMap V) (key : Nat)
    (hk : key + 1 < KEY_RANGE) : m.set_in_bounds key = true := by
  cases h : m.set_in_bounds key with
  | true => rfl
  | false =>
    have := ((set_in_bounds_eq_false_iff m key).mp h).2
    rw [Nat.mod_eq_of_lt hk] at this
    omega

/-- For a key below the largest key value `set` has defined behaviour. -/
theorem set_run_of_lt [Inhabited V] (m : VectorBasedDenseMap V) (key : Nat) (value : V)
    (hk : key + 1 < KEY_RANGE) : m.set_run key value = some (m.set key value) := by
  simp only [set_run, set_in_bounds_of_lt m key hk, if_true]

/-- A sequence of `set` calls whose keys are all below the largest key value has
defined behaviour. -/
theorem set_all_run_of_lt [Inhabited V] (calls : List (Nat × V)) :
    ∀ (m : VectorBasedDenseMap V), (∀ c ∈ calls, c.1 + 1 < KEY_RANGE) →
      m.set_all_run calls = some (m.set_all calls) := by
  induction calls with
  | nil => intro m _; rfl
  | cons c cs ih =>
    intro m hk
    simp only [set_all_run, set_run_of_lt m c.1 c.2 (hk c (List.mem_cons_self _ _))]
    exact ih (m.set c.1 c.2) (fun d hd => hk d (List.mem_cons_of_mem _ hd))

/-- When a sequence of `set` calls has defined behaviour, its result is the content
computed by `set_all`. -/
theorem set_all_run_eq_some [Inhabited V] (calls : List (Nat × V)) :
    ∀ (m s : VectorBasedDenseMap V), m.set_all_run calls = some s → s = m.set_all calls := by
  induction calls with
  | nil =>
    intro m s h
    exact (Option.some.inj h).symm
  | cons c cs ih =>
    intro m s h
    simp only [set_all_run, set_run] at h
    by_cases hb : m.set_in_bounds c.1 = true
    · rw [if_pos hb] at h
      exact ih (m.set c.1 c.2) s h
    · rw [if_neg hb] at h
      exact absurd h (by simp)

/-- Starting from the empty store, after a sequence of `set` calls with defined
behaviour `get(k)` throws `std::out_of_range` for every key `k` that is not the key
of one of the calls; sequences whose keys are all below the largest key value have
defined behaviour. -/
theorem get_key_never_set_of_defined [Inhabited V] [DecidableEq V] (calls : List (Nat × V))
    (k : Nat) (hk : k ∉ calls.map Prod.fst) :
    (∀ s, (empty : VectorBasedDenseMap V).set_all_run calls = some s →
      s.get k = .error .out_of_range) ∧
    ((∀ c ∈ calls, c.1 + 1 < KEY_RANGE) →
      ∃ s, (empty : VectorBasedDenseMap V).set_all_run calls = some s) := by
  constructor
  · intro s hs
    rw [set_all_run_eq_some calls _ s hs]
    unfold get
    split
    · rfl
    · rename_i x hx
      rcases set_all_getElem?_other calls _ k x hk hx with h | h
      · simp [empty] at h
      · rw [if_pos h]
  · intro hr
    exact ⟨_, set_all_run_of_lt calls _ hr⟩

/-- After a `set(k, d)` with the default value `d` and defined behaviour, `get(k)`
throws `std::out_of_range`; for a key below the largest key value the behaviour is
defined. -/
theorem get_set_default_of_defined [Inhabited V] [DecidableEq V] (m : VectorBasedDenseMap V)
    (k : Nat) :
    (∀ s, m.set_run k default = some s → s.get k = .error .out_of_range) ∧
    (k + 1 < KEY_RANGE → ∃ s, m.set_run k default = some s) := by
  constructor
  · intro s hs
    simp only [set_run] at hs
    by_cases hb : m.set_in_bounds k = true
    · rw [if_pos hb] at hs
      rw [← Option.some.inj hs]
      simp only [get, set]
      generalize (if m.size ≤ k then resize m.m_vector ((k + 1) % KEY_RANGE)
        else m.m_vector) = v
      split
      · rfl
      · rename_i x hx
        rw [List.getElem?_set, if_pos rfl] at hx
        by_cases hl : k < v.length
        · rw [if_pos hl] at hx
          rw [if_pos (Option.some.inj hx).symm]
        · rw [if_neg hl] at hx
          exact absurd hx (by simp)
    · rw [if_neg hb] at hs
      exact absurd hs (by simp)
  · intro hk
    exact ⟨_, set_run_of_lt m k default hk⟩

end VectorBasedDenseMap

/-! ## Sparse map: auxiliary facts -/

/-- A vector ordered by key, in terms of positions. -/
theorem sorted_getElem? {V : Type} (v : List (Nat × V))
    (hs : v.Sorted (fun a b => a.1 ≤ b.1)) (i j : Nat) (a b : Nat × V)
    (hi : v[i]? = some a) (hj : v[j]? = some b) (hij : i ≤ j) : a.1 ≤ b.1 := by
  obtain ⟨hil, rfl⟩ := List.getElem?_eq_some_iff.mp hi
  obtain ⟨hjl, rfl⟩ := List.getElem?_eq_some_iff.mp hj
  rcases Nat.eq_or_lt_of_le hij with h | h
  · subst h; exact Nat.le_refl _
  · exact List.pairwise_iff_getElem.mp hs i j hil hjl h

/-- The iteration bound of `lower_bound_loop` is never what ends the loop: any two
bounds of at least `len` give the same result. -/
theorem lower_bound_loop_fuel {α : Type} (v : List α) (val : α) (comp : α → α → Bool) :
    ∀ (fuel fuel2 first len : Nat), len ≤ fuel → len ≤ fuel2 →
      lower_bound_loop v val comp fuel first len
        = lower_bound_loop v val comp fuel2 first len := by
  intro fuel
  induction fuel with
  | zero =>
    intro fuel2 first len h1 _
    have h0 : len = 0 := by omega
    subst h0
    cases fuel2 with
    | zero => rfl
    | succ n => simp [lower_bound_loop]
  | succ fuel ih =>
    intro fuel2 first len h1 h2
    cases fuel2 with
    | zero =>
      have h0 : len = 0 := by omega
      subst h0
      simp [lower_bound_loop]
    | succ n =>
      simp only [lower_bound_loop]
      split
      · rfl
      · split
        · rfl
        · rw [ih n (first + len / 2 + 1) (len - len / 2 - 1) (by omega) (by omega),
            ih n first (len / 2) (by omega) (by omega)]

/-- The loop of `std::lower_bound` stays inside the range it was given, whatever the
order of the elements: the result lies between `first` and `first + len`. -/
theorem lower_bound_loop_range {α : Type} (v : List α) (val : α) (comp : α → α → Bool) :
    ∀ (fuel first len : Nat),
      first ≤ lower_bound_loop v val comp fuel first len ∧
      lower_bound_loop v val comp fuel first len ≤ first + len := by
  intro fuel
  induction fuel with
  | zero => intro first len; simp [lower_bound_loop]
  | succ fuel ih =>
    intro first len
    simp only [lower_bound_loop]
    split
    · omega
    · split
      · omega
      · have h1 := ih (first + len / 2 + 1) (len - len / 2 - 1)
        have h2 := ih first (len / 2)
        split <;> omega

/-- The loop of `std::lower_bound` on a vector ordered by key: started with all keys
before `first` below `key` and all keys from `first + len` on at least `key`, it
returns the position that separates the keys below `key` from the others. -/
theorem lower_bound_loop_sorted {V : Type} (v : List (Nat × V)) (val : Nat × V)
    (hs : v.Sorted (fun a b => a.1 ≤ b.1)) :
    ∀ (fuel first len : Nat), len ≤ fuel → first + len ≤ v.length →
      (∀ j e, v[j]? = some e → j < first → e.1 < val.1) →
      (∀ j e, v[j]? = some e → first + len ≤ j → val.1 ≤ e.1) →
      lower_bound_loop v val (fun a b => decide (a.1 < b.1)) fuel first len ≤ v.length ∧
      (∀ j e, v[j]? = some e →
        (j < lower_bound_loop v val (fun a b => decide (a.1 < b.1)) fuel first len ↔
          e.1 < val.1)) := by
  intro fuel
  induction fuel with
  | zero =>
    intro first len hf hl hlo hhi
    have h0 : len = 0 := by omega
    subst h0
    refine ⟨by simp only [lower_bound_loop]; omega, ?_⟩
    intro j e he
    simp only [lower_bound_loop]
    constructor
    · exact hlo j e he
    · intro hlt
      by_contra hc
      have := hhi j e he (by omega)
      omega
  | succ fuel ih =>
    intro first len hf hl hlo hhi
    by_cases h0 : len = 0
    · subst h0
      refine ⟨by simp only [lower_bound_loop, if_true]; omega, ?_⟩
      intro j e he
      simp only [lower_bound_loop, if_true]
      constructor
      · exact hlo j e he
      · intro hlt
        by_contra hc
        have := hhi j e he (by omega)
        omega
    · have hmid : first + len / 2 < v.length := by omega
      obtain ⟨a, ha⟩ : ∃ a, v[first + len / 2]? = some a :=
        ⟨v[first + len / 2], List.getElem?_eq_getElem hmid⟩
      simp only [lower_bound_loop, if_neg h0, ha]
      by_cases hc : a.1 < val.1
      · simp only [hc, decide_True, if_true]
        apply ih
        · omega
        · omega
        · intro j e he hj
          have := sorted_getElem? v hs j (first + len / 2) e a he ha (by omega)
          omega
        · intro j e he hj
          exact hhi j e he (by omega)
      · simp only [hc, decide_False, Bool.false_eq_true, if_false]
        apply ih
        · omega
        · omega
        · exact hlo
        · intro j e he hj
          have := sorted_getElem? v hs (first + len / 2) j a e ha he hj
          omega

/-- On a vector ordered by key `std::lower_bound` returns the position of the first
element whose key is not less than the key searched for. -/
theorem lower_bound_sorted {V : Type} (v : List (Nat × V)) (val : Nat × V)
    (hs : v.Sorted (fun a b => a.1 ≤ b.1)) :
    lower_bound v val (fun a b => decide (a.1 < b.1)) ≤ v.length ∧
    (∀ j e, v[j]? = some e →
      (j < lower_bound v val (fun a b => decide (a.1 < b.1)) ↔ e.1 < val.1)) := by
  unfold lower_bound
  apply lower_bound_loop_sorted v val hs v.length 0 v.length (Nat.le_refl _) (by omega)
  · intro j e _ hj
    omega
  · intro j e he hj
    have := (List.getElem?_eq_some_iff.mp he).1
    omega

/-- The order `std::sort` establishes, `!(b < a)`, spelled out: the keys increase,
or they are equal and the values do not decrease. -/
theorem sort_rel_iff {V : Type} [LinearOrder V] (a b : Nat × V) :
    sort_rel a b ↔ a.1 < b.1 ∨ (a.1 = b.1 ∧ a.2 ≤ b.2) := by
  unfold sort_rel pair_lt
  constructor
  · intro h
    rw [not_or, not_and] at h
    rcases Nat.lt_trichotomy a.1 b.1 with h1 | h1 | h1
    · exact Or.inl h1
    · exact Or.inr ⟨h1, not_lt.mp (h.2 (by omega))⟩
    · exact absurd h1 h.1
  · rintro (h | ⟨h1, h2⟩)
    · rw [not_or, not_and]
      exact ⟨by omega, fun hc => absurd h hc⟩
    · rw [not_or, not_and]
      exact ⟨by omega, fun _ => not_lt.mpr h2⟩

instance sort_rel_total {V : Type} [LinearOrder V] : IsTotal (Nat × V) sort_rel where
  total a b := by
    rw [sort_rel_iff, sort_rel_iff]
    rcases Nat.lt_trichotomy a.1 b.1 with h | h | h
    · exact Or.inl (Or.inl h)
    · rcases le_total a.2 b.2 with h2 | h2
      · exact Or.inl (Or.inr ⟨h, h2⟩)
      · exact Or.inr (Or.inr ⟨h.symm, h2⟩)
    · exact Or.inr (Or.inl h)

instance sort_rel_trans {V : Type} [LinearOrder V] : IsTrans (Nat × V) sort_rel where
  trans a b c := by
    rw [sort_rel_iff, sort_rel_iff, sort_rel_iff]
    rintro (h1 | ⟨h1, h1v⟩) (h2 | ⟨h2, h2v⟩)
    · exact Or.inl (by omega)
    · exact Or.inl (by omega)
    · exact Or.inl (by omega)
    · exact Or.inr ⟨by omega, le_trans h1v h2v⟩

instance sort_rel_antisymm {V : Type} [LinearOrder V] : IsAntisymm (Nat × V) sort_rel where
  antisymm a b := by
    rw [sort_rel_iff, sort_rel_iff]
    rintro (h1 | ⟨h1, h1v⟩) (h2 | ⟨h2, h2v⟩)
    · omega
    · omega
    · omega
    · exact Prod.ext h1 (le_antisymm h1v h2v)

/-- A vector in the order of `std::sort` is non-decreasing by key. -/
theorem sorted_key_of_sorted_sort_rel {V : Type} [LinearOrder V] (v : List (Nat × V))
    (h : v.Sorted sort_rel) : v.Sorted (fun a b => a.1 ≤ b.1) := by
  refine List.Pairwise.imp ?_ h
  intro a b hab
  rcases (sort_rel_iff a b).mp hab with h1 | h1
  · omega
  · omega

namespace VectorBasedSparseMap

variable {V : Type}

/-- The content after a sequence of `set` calls: the calls appended in order. -/
theorem set_all_m_vector (calls : List (Nat × V)) :
    ∀ m : VectorBasedSparseMap V, (m.set_all calls).m_vector = m.m_vector ++ calls := by
  induction calls with
  | nil => intro m; simp [set_all]
  | cons c cs ih =>
    intro m
    have h := ih (m.set c.1 c.2)
    simp only [set_all, List.foldl_cons] at h ⊢
    rw [h]
    simp [set]

/-- The content after `sort` is non-decreasing by key. -/
theorem sort_sorted_key [LinearOrder V] (m : VectorBasedSparseMap V) :
    m.sort.m_vector.Sorted (fun a b => a.1 ≤ b.1) :=
  sorted_key_of_sorted_sort_rel _ (List.sorted_insertionSort sort_rel m.m_vector)

/-- The content after `sort` is in the order of `std::sort`: no entry is less
(`operator<` of pairs) than an entry before it. -/
theorem sort_sorted_rel [LinearOrder V] (m : VectorBasedSparseMap V) :
    m.sort.m_vector.Sorted sort_rel :=
  List.sorted_insertionSort sort_rel m.m_vector

/-- The result of `std::sort` is determined by its specification: every
rearrangement of the content that is in the order of `std::sort` is the content
after `sort`. -/
theorem sort_unique [LinearOrder V] (m : VectorBasedSparseMap V) (l : List (Nat × V))
    (hp : l.Perm m.m_vector) (hs : l.Sorted sort_rel) : l = m.sort.m_vector :=
  List.eq_of_perm_of_sorted (hp.trans (List.perm_insertionSort sort_rel m.m_vector).symm)
    hs (sort_sorted_rel m)

/-- The sparse `get` on a vector ordered by key: the position it inspects is the
first one whose key is not less than `key`; it throws exactly when no element has
the key, and what it returns is the value at that position, whose key is `key`. -/
theorem get_of_sorted [Inhabited V] (m : VectorBasedSparseMap V) (key : Nat)
    (hs : m.m_vector.Sorted (fun a b => a.1 ≤ b.1)) :
    (lower_bound m.m_vector (key, default) (fun a b => decide (a.1 < b.1)) ≤ m.size ∧
      ∀ j e, m.m_vector[j]? = some e →
        (j < lower_bound m.m_vector (key, default) (fun a b => decide (a.1 < b.1)) ↔
          e.1 < key)) ∧
    (m.get key = .error .out_of_range ↔ ∀ e ∈ m.m_vector, e.1 ≠ key) ∧
    (∀ x, m.get key = .ok x →
      m.m_vector[lower_bound m.m_vector (key, default) (fun a b => decide (a.1 < b.1))]?
        = some (key, x)) := by
  have hlb := lower_bound_sorted m.m_vector (key, default) hs
  refine ⟨hlb, ?_, ?_⟩
  · unfold get
    simp only []
    cases hr : m.m_vector[lower_bound m.m_vector (key, default)
        (fun a b => decide (a.1 < b.1))]? with
    | none =>
      simp only [true_iff]
      intro e he
      obtain ⟨j, hj⟩ := List.mem_iff_getElem?.mp he
      have hlen := List.getElem?_eq_none_iff.mp hr
      have hjl := (List.getElem?_eq_some_iff.mp hj).1
      have := (hlb.2 j e hj).mp (by omega)
      simp only at this
      omega
    | some a =>
      have ha : ¬ a.1 < key := fun hc => by
        have := (hlb.2 _ a hr).mpr hc
        omega
      by_cases hk : a.1 = key
      · simp only [hk, ne_eq, not_true_eq_false, if_false]
        constructor
        · intro h; cases h
        · intro h
          exact absurd hk (h a (List.mem_iff_getElem?.mpr ⟨_, hr⟩))
      · simp only [ne_eq, hk, not_false_eq_true, if_true, true_iff]
        intro e he
        obtain ⟨j, hj⟩ := List.mem_iff_getElem?.mp he
        by_cases hjr : j < lower_bound m.m_vector (key, default)
            (fun a b => decide (a.1 < b.1))
        · have := (hlb.2 j e hj).mp hjr
          simp only at this
          omega
        · have := sorted_getElem? m.m_vector hs _ j a e hr hj (by omega)
          omega
  · intro x hx
    unfold get at hx
    simp only [] at hx
    cases hr : m.m_vector[lower_bound m.m_vector (key, default)
        (fun a b => decide (a.1 < b.1))]? with
    | none => rw [hr] at hx; cases hx
    | some a =>
      rw [hr] at hx
      by_cases hk : a.1 = key
      · simp only [hk, ne_eq, not_true_eq_false, if_false] at hx
        cases hx
        rw [← hk]
      · simp only [ne_eq, hk, not_false_eq_true, if_true] at hx
        cases hx

end VectorBasedSparseMap

/-! ## Dense map: the claims -/

variable {V : Type}

/-- C1, at the largest key: on the store holding `7` in slot `0`, `set(2^64-1, 1)`
evaluates `key+1` to `0`, so the vector is resized to length `0` (and the store of
the value is out of bounds); the following `get(2^64-1)` throws `std::out_of_range`
instead of returning the value `1` that was set. -/
theorem dense_get_after_set_largest_key :
    ((VectorBasedDenseMap.mk [7]).set (2 ^ 64 - 1) 1).get (2 ^ 64 - 1)
      = .error .out_of_range := by
  decide

/-- C2, at the largest key: on the empty store the call `set(2^64-1, 1)` evaluates
`key+1` to `0`, resizes the vector to length `0` and stores out of bounds: the
behaviour of the sequence is undefined, and no `get` that throws
`std::out_of_range` follows.  The same holds when the call comes second, after
`set(0, 7)`, and `set(3, 1)` follows. -/
theorem dense_sets_largest_key_undefined :
    (VectorBasedDenseMap.empty : VectorBasedDenseMap Nat).set_in_bounds (2 ^ 64 - 1) = false ∧
    (VectorBasedDenseMap.empty : VectorBasedDenseMap Nat).set_all_run [(2 ^ 64 - 1, 1)]
      = none ∧
    (VectorBasedDenseMap.empty : VectorBasedDenseMap Nat).set_all_run
      [(0, 7), (2 ^ 64 - 1, 1), (3, 1)] = none := by
  decide

/-- C3: the dense `get(key)` throws `std::out_of_range` exactly when `key >= size()`
or the value stored at position `key` equals the default value; in every other case
it returns the value stored at position `key`. -/
theorem dense_get_characterisation [Inhabited V] [DecidableEq V] (m : VectorBasedDenseMap V)
    (key : Nat) :
    (m.get key = .error .out_of_range ↔ (m.size ≤ key ∨ m.m_vector[key]? = some default)) ∧
    (¬ (m.size ≤ key ∨ m.m_vector[key]? = some default) →
      ∃ x, m.m_vector[key]? = some x ∧ m.get key = .ok x) := by
  unfold VectorBasedDenseMap.get VectorBasedDenseMap.size
  cases h : m.m_vector[key]? with
  | none =>
    have hl := List.getElem?_eq_none_iff.mp h
    simp [hl]
  | some x =>
    have hl : key < m.m_vector.length := by
      by_contra hc
      rw [List.getElem?_eq_none_iff.mpr (by omega)] at h
      exact absurd h (by simp)
    by_cases hx : x = default
    · simp [hx]
    · simp [hx, hl]

/-- C4, at the largest key: `set(2^64-1, 1)` on a store of size 1 evaluates `key+1` to
`0` and resizes the vector to length `0`; afterwards `size()` is `0`, not at least
`key + 1`. -/
theorem dense_size_after_set_largest_key :
    ((VectorBasedDenseMap.mk [7]).set (2 ^ 64 - 1) 1).size = 0 ∧
    ¬ (2 ^ 64 - 1 + 1 ≤ ((VectorBasedDenseMap.mk [7]).set (2 ^ 64 - 1) 1).size) := by
  decide

/-- C9, at the largest key: `set(2^64-1, 1)` on the store holding `7` in slot `0`
resizes the vector to length `0`; slot `0`, which is not the slot of the key and was
below the old size, loses its value: `get(0)` returned `7` before and throws after. -/
theorem dense_set_largest_key_drops_slots :
    (VectorBasedDenseMap.mk [7]).get 0 = .ok 7 ∧
    ((VectorBasedDenseMap.mk [7]).set (2 ^ 64 - 1) 1).m_vector[0]? = none ∧
    ((VectorBasedDenseMap.mk [7]).set (2 ^ 64 - 1) 1).get 0 = .error .out_of_range := by
  decide

/-! ## Sparse map: the claims -/

/-- C5: pairs with pairwise distinct keys, inserted by `set` in any order into the
empty sparse store and followed by `sort()`: `get(k)` returns the value paired with
`k` for every inserted key, and throws `std::out_of_range` for every other key. -/
theorem sparse_get_after_sort [Inhabited V] [LinearOrder V] (calls : List (Nat × V))
    (hd : (calls.map Prod.fst).Nodup) :
    (∀ p ∈ calls, ((VectorBasedSparseMap.empty.set_all calls).sort).get p.1 = .ok p.2) ∧
    (∀ k, k ∉ calls.map Prod.fst →
      ((VectorBasedSparseMap.empty.set_all calls).sort).get k = .error .out_of_range) := by
  have hv : (VectorBasedSparseMap.empty.set_all calls).m_vector = calls := by
    rw [VectorBasedSparseMap.set_all_m_vector]
    rfl
  have hmem : ∀ e, e ∈ ((VectorBasedSparseMap.empty.set_all calls).sort).m_vector ↔
      e ∈ calls := by
    intro e
    simp only [VectorBasedSparseMap.sort, hv]
    exact List.mem_insertionSort sort_rel
  have hs := VectorBasedSparseMap.sort_sorted_key (VectorBasedSparseMap.empty.set_all calls)
  constructor
  · intro p hp
    have hg := VectorBasedSparseMap.get_of_sorted _ p.1 hs
    cases hr : ((VectorBasedSparseMap.empty.set_all calls).sort).get p.1 with
    | error err =>
      cases err
      exact absurd rfl (hg.2.1.mp hr p ((hmem p).mpr hp))
    | ok x =>
      have hx : (p.1, x) ∈ calls :=
        (hmem _).mp (List.mem_iff_getElem?.mpr ⟨_, hg.2.2 x hr⟩)
      have := List.inj_on_of_nodup_map hd hx hp rfl
      rw [← this]
  · intro k hk
    have hg := VectorBasedSparseMap.get_of_sorted
      ((VectorBasedSparseMap.empty.set_all calls).sort) k hs
    apply hg.2.1.mpr
    intro e he hek
    exact hk (List.mem_map.mpr ⟨e, (hmem e).mp he, hek⟩)

theorem sparse_get_after_sort_witness :
    ([(100, 1), (5, 2), (50, 3)].map Prod.fst).Nodup ∧
    ((VectorBasedSparseMap.empty.set_all [(100, 1), (5, 2), (50, 3)]).sort).get 50 = .ok 3 ∧
    ((VectorBasedSparseMap.empty.set_all [(100, 1), (5, 2), (50, 3)]).sort).get 6
      = .error .out_of_range :=
  ⟨by decide,
    (sparse_get_after_sort [(100, 1), (5, 2), (50, 3)] (by decide)).1 (50, 3) (by decide),
    (sparse_get_after_sort [(100, 1), (5, 2), (50, 3)] (by decide)).2 6 (by decide)⟩

/-- C6: after `sort()` the entry sequence of the sparse store is non-decreasing by key
and is a permutation of the entry sequence held before; `size()` is unchanged. -/
theorem sparse_sort_sorted_perm [LinearOrder V] (m : VectorBasedSparseMap V) :
    m.sort.m_vector.Sorted (fun a b => a.1 ≤ b.1) ∧
    m.sort.m_vector.Perm m.m_vector ∧
    m.sort.size = m.size :=
  ⟨VectorBasedSparseMap.sort_sorted_key m, List.perm_insertionSort sort_rel m.m_vector,
    List.length_insertionSort sort_rel m.m_vector⟩

/-- C7: on a sparse store whose entries are non-decreasing by key (equal keys
allowed), `get(key)` inspects the position of the first entry whose key is not less
than `key` (every entry before it has a smaller key, no entry from it on has); it
throws `std::out_of_range` exactly when no entry has the key, and a value it returns
is the value of the entry at that position, whose key is `key`. -/
theorem sparse_get_on_sorted [Inhabited V] (m : VectorBasedSparseMap V) (key : Nat)
    (hs : m.m_vector.Sorted (fun a b => a.1 ≤ b.1)) :
    (lower_bound m.m_vector (key, default) (fun a b => decide (a.1 < b.1)) ≤ m.size ∧
      ∀ j e, m.m_vector[j]? = some e →
        (j < lower_bound m.m_vector (key, default) (fun a b => decide (a.1 < b.1)) ↔
          e.1 < key)) ∧
    (m.get key = .error .out_of_range ↔ ∀ e ∈ m.m_vector, e.1 ≠ key) ∧
    (∀ x, m.get key = .ok x →
      m.m_vector[lower_bound m.m_vector (key, default) (fun a b => decide (a.1 < b.1))]?
        = some (key, x) ∧ (key, x) ∈ m.m_vector) := by
  have h := VectorBasedSparseMap.get_of_sorted m key hs
  refine ⟨h.1, h.2.1, fun x hx => ⟨h.2.2 x hx, ?_⟩⟩
  exact List.mem_iff_getElem?.mpr ⟨_, h.2.2 x hx⟩

theorem sparse_get_on_sorted_witness :
    (VectorBasedSparseMap.mk [(5, 2), (5, 9), (50, 3)]).m_vector.Sorted
      (fun a b => a.1 ≤ b.1) ∧
    (VectorBasedSparseMap.mk [(5, 2), (5, 9), (50, 3)]).get 5 = .ok 2 ∧
    (5, 2) ∈ (VectorBasedSparseMap.mk [(5, 2), (5, 9), (50, 3)]).m_vector :=
  ⟨by decide, by decide,
    ((sparse_get_on_sorted (VectorBasedSparseMap.mk [(5, 2), (5, 9), (50, 3)]) 5
      (by decide)).2.2 2 (by decide)).2⟩

/-- C8: the sparse `set(key, value)` increases `size()` by one, leaves every entry
stored before at its position, and places `(key, value)` at the last position,
whether or not the key is already present. -/
theorem sparse_set_appends (m : VectorBasedSparseMap V) (key : Nat) (value : V) :
    (m.set key value).size = m.size + 1 ∧
    (∀ i, i < m.size → (m.set key value).m_vector[i]? = m.m_vector[i]?) ∧
    (m.set key value).m_vector[m.size]? = some (key, value) ∧
    (m.set key value).m_vector = m.m_vector ++ [(key, value)] := by
  refine ⟨by simp [VectorBasedSparseMap.set, VectorBasedSparseMap.size], ?_, ?_, rfl⟩
  · intro i hi
    exact List.getElem?_append_left hi
  · simp [VectorBasedSparseMap.set, VectorBasedSparseMap.size]

/-- C10: for the dense and for the sparse store, `size()` is `0` after `clear()`, and
`clear()` called twice leaves the same state as `clear()` called once. -/
theorem clear_size_zero_idempotent (d : VectorBasedDenseMap V) (s : VectorBasedSparseMap V) :
    d.clear.size = 0 ∧ d.clear.clear = d.clear ∧
    s.clear.size = 0 ∧ s.clear.clear = s.clear :=
  ⟨rfl, rfl, rfl, rfl⟩

/-! ## Dense map: further claims -/

/-- C11, at the largest key: on the empty store `set(2^64-1, d)` with the default
value `d` evaluates `key+1` to `0`, resizes the vector to length `0` and stores out
of bounds: the behaviour is undefined, and no `get` that throws `std::out_of_range`
follows. -/
theorem dense_set_default_largest_key_undefined :
    (VectorBasedDenseMap.empty : VectorBasedDenseMap Nat).set_run (2 ^ 64 - 1) default
      = none := by
  decide

/-- C12: the dense `reserve(n)` leaves `size()` and the result of `get(k)` for every
key as they were; `reserve(0)` followed by `clear()` on the empty store ends with
`size() == 0`. -/
theorem dense_reserve_frame [Inhabited V] [DecidableEq V] (m : VectorBasedDenseMap V)
    (n : Nat) :
    (m.reserve n).size = m.size ∧
    (∀ k, (m.reserve n).get k = m.get k) ∧
    (((VectorBasedDenseMap.empty : VectorBasedDenseMap V).reserve 0).clear).size = 0 :=
  ⟨rfl, fun _ => rfl, rfl⟩

/-- C13, at the largest key: from the empty store, `set(0, 7)` followed by
`set(2^64-1, 1)`: the second call evaluates `key+1` to `0` and resizes the vector to
length `0` (the store of the value is out of bounds); `size()` is `0` afterwards,
not the highest key plus one.  The keys 3, 1, 7 give `size() == 8`. -/
theorem dense_size_after_sets_largest_key :
    ((VectorBasedDenseMap.empty : VectorBasedDenseMap Nat).set_all
      [(0, 7), (2 ^ 64 - 1, 1)]).size = 0 ∧
    ¬ ((VectorBasedDenseMap.empty : VectorBasedDenseMap Nat).set_all
      [(0, 7), (2 ^ 64 - 1, 1)]).size = 2 ^ 64 - 1 + 1 ∧
    ((VectorBasedDenseMap.empty : VectorBasedDenseMap Nat).set_all
      [(3, 10), (1, 11), (7, 12)]).size = 8 := by
  decide

/-! ## Sparse map: further claims -/

/-- C14: a sparse store populated by `set` with pairwise distinct keys and not
sorted, on which `get` of an inserted key goes wrong: after the sets `(100, 1)`,
`(5, 2)`, `(50, 3)` the pair `(5, 2)` is stored, yet `get(5)` throws
`std::out_of_range`, the same exception as for the key `6` that was never
inserted; after `sort()` the same `get(5)` returns `2`. -/
theorem sparse_get_before_sort_misses :
    ([(100, 1), (5, 2), (50, 3)].map Prod.fst).Nodup ∧
    (5, 2) ∈ (VectorBasedSparseMap.empty.set_all [(100, 1), (5, 2), (50, 3)]).m_vector ∧
    (VectorBasedSparseMap.empty.set_all [(100, 1), (5, 2), (50, 3)]).get 5
      = .error .out_of_range ∧
    (VectorBasedSparseMap.empty.set_all [(100, 1), (5, 2), (50, 3)]).get 6
      = .error .out_of_range ∧
    ((VectorBasedSparseMap.empty.set_all [(100, 1), (5, 2), (50, 3)]).sort).get 5
      = .ok 2 := by
  decide

/-- C15: `sort()` orders the pairs lexicographically (by key, entries with equal
keys by value), and after `sort()` the sparse `get(k)` returns, for every key `k`
stored at least once, the least of the values stored under `k`, in whatever order
the entries were inserted. -/
theorem sparse_get_least_value [Inhabited V] [LinearOrder V] (m : VectorBasedSparseMap V) :
    m.sort.m_vector.Sorted (fun a b => a.1 < b.1 ∨ (a.1 = b.1 ∧ a.2 ≤ b.2)) ∧
    (∀ k v, (k, v) ∈ m.m_vector →
      ∃ x, m.sort.get k = .ok x ∧ (k, x) ∈ m.m_vector ∧
        ∀ y, (k, y) ∈ m.m_vector → x ≤ y) := by
  have hrel := VectorBasedSparseMap.sort_sorted_rel m
  have hkey := VectorBasedSparseMap.sort_sorted_key m
  have hmem : ∀ e, e ∈ m.sort.m_vector ↔ e ∈ m.m_vector := fun e =>
    List.mem_insertionSort sort_rel
  constructor
  · exact List.Pairwise.imp (fun {a b} hab => (sort_rel_iff a b).mp hab) hrel
  · intro k v hv
    obtain ⟨hlb, herr, hok⟩ := VectorBasedSparseMap.get_of_sorted m.sort k hkey
    cases hr : m.sort.get k with
    | error err =>
      cases err
      exact absurd rfl (herr.mp hr (k, v) ((hmem _).mpr hv))
    | ok x =>
      have hx := hok x hr
      refine ⟨x, rfl, (hmem _).mp (List.mem_iff_getElem?.mpr ⟨_, hx⟩), ?_⟩
      intro y hy
      obtain ⟨j, hj⟩ := List.mem_iff_getElem?.mp ((hmem _).mpr hy)
      have hjr : ¬ j < lower_bound m.sort.m_vector (k, default)
          (fun a b => decide (a.1 < b.1)) := fun hc => by
        have := (hlb.2 j (k, y) hj).mp hc
        simp only at this
        omega
      rcases Nat.eq_or_lt_of_le (Nat.le_of_not_lt hjr) with he | hlt
      · rw [he, hj] at hx
        have hxy : y = x := (Prod.ext_iff.mp (Option.some.inj hx)).2
        rw [hxy]
      · obtain ⟨h1, e1⟩ := List.getElem?_eq_some_iff.mp hx
        obtain ⟨h2, e2⟩ := List.getElem?_eq_some_iff.mp hj
        have hs := List.pairwise_iff_getElem.mp hrel _ j h1 h2 hlt
        rw [e1, e2, sort_rel_iff] at hs
        rcases hs with hs | hs
        · simp only at hs
          omega
        · exact hs.2

theorem sparse_get_least_value_witness :
    ((VectorBasedSparseMap.mk [(5, 9), (7, 1), (5, 2), (5, 3)]).sort).m_vector
      = [(5, 2), (5, 3), (5, 9), (7, 1)] ∧
    ∃ x, ((VectorBasedSparseMap.mk [(5, 9), (7, 1), (5, 2), (5, 3)]).sort).get 5 = .ok x ∧
      (5, x) ∈ (VectorBasedSparseMap.mk [(5, 9), (7, 1), (5, 2), (5, 3)]).m_vector ∧
      ∀ y, (5, y) ∈ (VectorBasedSparseMap.mk [(5, 9), (7, 1), (5, 2), (5, 3)]).m_vector →
        x ≤ y :=
  ⟨by decide,
    (sparse_get_least_value (VectorBasedSparseMap.mk [(5, 9), (7, 1), (5, 2), (5, 3)])).2
      5 9 (by decide)⟩

/-- C16: two sequences of `set` calls that are permutations of each other, applied
to the same sparse store, give the same entry sequence after `sort()` and so the
same `get` result for every key; `sort()` after `sort()` changes nothing. -/
theorem sparse_sort_order_independent [Inhabited V] [LinearOrder V]
    (m0 : VectorBasedSparseMap V) (calls1 calls2 : List (Nat × V))
    (hp : calls1.Perm calls2) :
    (m0.set_all calls1).sort = (m0.set_all calls2).sort ∧
    (∀ k, ((m0.set_all calls1).sort).get k = ((m0.set_all calls2).sort).get k) ∧
    (∀ m : VectorBasedSparseMap V, m.sort.sort = m.sort) := by
  have h : (m0.set_all calls1).sort = (m0.set_all calls2).sort := by
    have hv : ((m0.set_all calls1).sort).m_vector = ((m0.set_all calls2).sort).m_vector := by
      apply VectorBasedSparseMap.sort_unique
      · refine (List.perm_insertionSort sort_rel _).trans ?_
        rw [VectorBasedSparseMap.set_all_m_vector, VectorBasedSparseMap.set_all_m_vector]
        exact List.Perm.append_left _ hp
      · exact VectorBasedSparseMap.sort_sorted_rel _
    cases h1 : (m0.set_all calls1).sort
    cases h2 : (m0.set_all calls2).sort
    rw [h1, h2] at hv
    simp only at hv
    rw [hv]
  refine ⟨h, fun k => by rw [h], fun m => ?_⟩
  have := List.Sorted.insertionSort_eq (VectorBasedSparseMap.sort_sorted_rel m)
  cases hm : m.sort
  rw [hm] at this
  simp only [VectorBasedSparseMap.sort]
  simp only at this
  rw [this]

theorem sparse_sort_order_independent_witness :
    [(100, 1), (5, 2), (5, 1), (50, 3)].Perm [(5, 1), (50, 3), (100, 1), (5, 2)] ∧
    ((VectorBasedSparseMap.empty.set_all [(100, 1), (5, 2), (5, 1), (50, 3)]).sort).m_vector
      = [(5, 1), (5, 2), (50, 3), (100, 1)] ∧
    (VectorBasedSparseMap.empty.set_all [(100, 1), (5, 2), (5, 1), (50, 3)]).sort
      = (VectorBasedSparseMap.empty.set_all [(5, 1), (50, 3), (100, 1), (5, 2)]).sort :=
  ⟨by decide, by decide,
    (sparse_sort_order_independent VectorBasedSparseMap.empty
      [(100, 1), (5, 2), (5, 1), (50, 3)] [(5, 1), (50, 3), (100, 1), (5, 2)]
      (by decide)).1⟩

end osmium.index.map
